import Mathlib

/-!
Shallow embedding of the study-sidekick document-processing pipeline
(`api/src/handlers/documentHandler.ts`, `api/src/lib/textChunker.ts`,
`api/src/services/embeddingService.ts`, and the clustering utility), together
with theorems settling the specification claims about it.
-/

namespace StudySidekick

/-! ## Chunker (`api/src/lib/textChunker.ts`)

The JS loop is

```
let i = 0;
while (i < text.length) \x7b
    const end = Math.min(i + chunkSize, text.length);
    chunks.push(text.slice(i, end));
    i += chunkSize - overlap;
    if (i < 0) i = end;
\x7d
```

We embed it with explicit fuel so that non-termination of the source loop is
expressible: a run that does not finish within any amount of fuel corresponds
to an infinite loop of the JS code.  The cursor update computes
`i + chunkSize - overlap` over the integers (JS numbers) and applies the
`if (i < 0) i = end` fallback, exactly as the source does. -/

def chunkTextGo (size overlap : Nat) (text : List Char) :
    Nat → Nat → List (List Char) → Option (List (List Char))
  | 0, i, acc => if i < text.length then none else some acc.reverse
  | fuel + 1, i, acc =>
    if i < text.length then
      let e := min (i + size) text.length
      let next : Int := (i : Int) + (size : Int) - (overlap : Int)
      chunkTextGo size overlap text fuel (if next < 0 then e else next.toNat)
        (((text.drop i).take (e - i)) :: acc)
    else some acc.reverse

/-- `chunkText(text, size, overlap)`.  `text.length + 1` units of fuel are
enough for every terminating run with `overlap < size` (the cursor advances by
`size - overlap ≥ 1` each step); `none` means the source loop did not
terminate within the given fuel. -/
def chunkText (text : List Char) (size overlap : Nat) : Option (List (List Char)) :=
  chunkTextGo size overlap text (text.length + 1) 0 []

/-- The chunk-count formula claimed by the spec:
`ceil(max(L-O,1)/(S-O))` chunks for `L > 0`, and zero chunks for `L = 0`. -/
def claimedChunkCount (L S O : Nat) : Nat :=
  if L = 0 then 0 else (max (L - O) 1 + (S - O) - 1) / (S - O)

/-- The number of loop iterations actually performed by the code:
`ceil(L / (S - O))`, where the cursor starts at `0` and advances by `S - O`
while it is `< L`.  (At `L = 0` this is `0`.) -/
def codeChunkCount (L S O : Nat) : Nat :=
  (L + (S - O) - 1) / (S - O)

lemma ceil_div_step (m d : Nat) (hm : 1 ≤ m) (hd : 0 < d) :
    (m + d - 1) / d = (m - d + d - 1) / d + 1 := by
  rcases le_or_lt m d with h | h
  · have h0 : m - d = 0 := by omega
    have h1 : m + d - 1 = (m - 1) + d := by omega
    rw [h0, h1, Nat.add_div_right _ hd, Nat.div_eq_of_lt (by omega),
      Nat.div_eq_of_lt (by omega)]
  · have h1 : m + d - 1 = (m - d + d - 1) + d := by omega
    rw [h1, Nat.add_div_right _ hd]

lemma chunkTextGo_length (size overlap : Nat) (h : overlap < size)
    (text : List Char) :
    ∀ fuel i acc, text.length ≤ i + fuel * (size - overlap) →
      ∃ l, chunkTextGo size overlap text fuel i acc = some l ∧
        l.length = acc.length + (text.length - i + (size - overlap) - 1) / (size - overlap) := by
  have hd : 0 < size - overlap := by omega
  intro fuel
  induction fuel with
  | zero =>
    intro i acc hfuel
    simp only [Nat.zero_mul, Nat.add_zero] at hfuel
    have hi : ¬ i < text.length := by omega
    refine ⟨acc.reverse, by simp [chunkTextGo, hi], ?_⟩
    have hz : text.length - i = 0 := by omega
    have h0 : (0 + (size - overlap) - 1) / (size - overlap) = 0 :=
      Nat.div_eq_of_lt (by omega)
    rw [hz, h0, List.length_reverse, Nat.add_zero]
  | succ fuel ih =>
    intro i acc hfuel
    have hmul : (fuel + 1) * (size - overlap)
        = fuel * (size - overlap) + (size - overlap) := by ring
    rw [hmul] at hfuel
    by_cases hi : i < text.length
    · have hnext : ¬ ((i : Int) + (size : Int) - (overlap : Int) < 0) := by omega
      have htoNat : ((i : Int) + (size : Int) - (overlap : Int)).toNat
          = i + (size - overlap) := by omega
      obtain ⟨l, hl, hlen⟩ := ih (i + (size - overlap))
        (((text.drop i).take (min (i + size) text.length - i)) :: acc) (by omega)
      refine ⟨l, ?_, ?_⟩
      · simp only [chunkTextGo, if_pos hi, if_neg hnext, htoNat]
        exact hl
      · rw [hlen]
        simp only [List.length_cons]
        have hstep : (text.length - i + (size - overlap) - 1) / (size - overlap)
            = (text.length - i - (size - overlap) + (size - overlap) - 1) / (size - overlap) + 1 :=
          ceil_div_step _ _ (by omega) hd
        have hsub : text.length - (i + (size - overlap))
            = text.length - i - (size - overlap) := by omega
        rw [hsub]
        omega
    · refine ⟨acc.reverse, by simp [chunkTextGo, hi], ?_⟩
      have hz : text.length - i = 0 := by omega
      have h0 : (0 + (size - overlap) - 1) / (size - overlap) = 0 :=
        Nat.div_eq_of_lt (by omega)
      rw [hz, h0, List.length_reverse, Nat.add_zero]

/-- C8 — counterexample.  The claim says `chunkText` on a text of length `L`
with `overlap < size` returns `ceil(max(L-O,1)/(S-O))` chunks.  On the
three-character text `"abc"` with `size = 2, overlap = 1` the code pushes the
windows `"ab"`, `"bc"`, `"c"` — three chunks — while the claimed formula gives
`ceil(max(3-1,1)/1) = 2`. -/
theorem chunkText_count_counterexample :
    (chunkText ['a', 'b', 'c'] 2 1).map List.length ≠ some (claimedChunkCount 3 2 1) ∧
    (chunkText ['a', 'b', 'c'] 2 1).map List.length = some 3 ∧
    claimedChunkCount 3 2 1 = 2 := by
  refine ⟨?_, ?_, ?_⟩ <;> decide

/-- C8 — amended claim.  For every text of length `L` and `overlap < size`,
`chunkText` terminates and returns exactly `ceil(L/(size-overlap))` chunks
(the cursor visits `0, d, 2d, …` while `< L`, pushing one chunk per visit);
in particular it returns zero chunks when `L = 0`. -/
theorem chunkText_count (text : List Char) (size overlap : Nat)
    (h : overlap < size) :
    ∃ l, chunkText text size overlap = some l ∧
      l.length = codeChunkCount text.length size overlap := by
  have hd : 0 < size - overlap := by omega
  obtain ⟨l, hl, hlen⟩ := chunkTextGo_length size overlap h text (text.length + 1) 0 []
    (by nlinarith)
  refine ⟨l, hl, ?_⟩
  rw [hlen]
  simp [codeChunkCount]

theorem chunkText_count_witness :
    ∃ l, chunkText ['a', 'b', 'c'] 2 1 = some l ∧
      l.length = codeChunkCount 3 2 1 :=
  chunkText_count ['a', 'b', 'c'] 2 1 (by decide)

/-- C9 — the claim asserts `chunkText` terminates for every `size > 0` and
`overlap ≥ 0`, including `overlap ≥ size`, thanks to the
`if (i < 0) i = end` fallback.  It does not: for `size = overlap` the cursor
update `i += size - overlap` leaves `i` unchanged and never negative, so the
fallback never fires and the loop runs forever.  Concretely, on the
one-character text `"a"` with `size = 1, overlap = 1` the loop never finishes,
whatever fuel it is given. -/
theorem chunkText_overlap_eq_size_diverges :
    ∀ fuel acc, chunkTextGo 1 1 ['a'] fuel 0 acc = none := by
  intro fuel
  induction fuel with
  | zero => intro acc; simp [chunkTextGo]
  | succ fuel ih =>
    intro acc
    simpa [chunkTextGo] using ih _

/-! ## Chunk store and pipeline operations
(`api/src/handlers/documentHandler.ts`, `api/src/services/ragService.ts`)

A chunk row of the `documents` table.  The embedding vector type is a
parameter `V`; the pipeline never inspects its contents, only whether it is
`null`. -/

inductive PStatus
  | pending
  | processing
  | completed
  | failed
deriving DecidableEq

structure ChunkRow (V : Type) where
  id : Nat
  document_id : String
  content : String
  embedding : Option V
  processing_status : PStatus
deriving DecidableEq

/-- `insertChunks` / `handleProcessDocument`: every chunk is inserted with
`embedding: null, processing_status: PENDING`; the store assigns ids (here:
positional). -/
def insertChunks (V : Type) (docId : String) (contents : List String) :
    List (ChunkRow V) :=
  contents.enum.map (fun p =>
    { id := p.1, document_id := docId, content := p.2,
      embedding := none, processing_status := PStatus.pending })

/-- The atomic claim in `handleProcessChunk`:
`update(\x7b processing_status: PROCESSING \x7d).eq(id, c).eq(processing_status, PENDING).select(id)`.
Returns the updated table and the number of affected rows. -/
def claimChunk (db : List (ChunkRow V)) (c : Nat) : List (ChunkRow V) × Nat :=
  (db.map (fun r =>
      if r.id = c ∧ r.processing_status = PStatus.pending then
        { r with processing_status := PStatus.processing }
      else r),
   (db.filter (fun r =>
      decide (r.id = c ∧ r.processing_status = PStatus.pending))).length)

/-- `update(\x7b embedding, processing_status: COMPLETED \x7d).eq(id, c)`:
one atomic write of the embedding together with the COMPLETED status. -/
def completeChunk (db : List (ChunkRow V)) (c : Nat) (v : V) : List (ChunkRow V) :=
  db.map (fun r =>
    if r.id = c then
      { r with embedding := some v, processing_status := PStatus.completed }
    else r)

/-- `update(\x7b processing_status: FAILED \x7d).eq(id, c)`. -/
def failChunk (db : List (ChunkRow V)) (c : Nat) : List (ChunkRow V) :=
  db.map (fun r =>
    if r.id = c then { r with processing_status := PStatus.failed } else r)

/-- `update(\x7b processing_status: PENDING \x7d).eq(id, c)` — the re-queue
performed when a long rate-limit cooldown is required. -/
def requeueChunk (db : List (ChunkRow V)) (c : Nat) : List (ChunkRow V) :=
  db.map (fun r =>
    if r.id = c then { r with processing_status := PStatus.pending } else r)

/-- Outcome of `retry(() => createEmbedding(...))` as seen by
`_processChunkEmbedding`: a value, a `RateLimitCoolDownError`, or a fatal
error (retry budget exhausted or any other exception). -/
inductive EmbedOutcome (V : Type)
  | success (v : V)
  | coolDown
  | fatal
deriving DecidableEq

/-- `_processChunkEmbedding(chunkId, documentId)`.  Fetches the chunk content
(a missing row throws, landing in the catch-all), then dispatches on the
outcome of the embedding call: success writes embedding + COMPLETED;
`RateLimitCoolDownError` resets the status to PENDING and returns gracefully;
anything else marks the chunk FAILED and rethrows.  The boolean records
whether an error propagates to the calling handler. -/
def processChunkEmbedding (db : List (ChunkRow V)) (c : Nat)
    (outcome : EmbedOutcome V) : List (ChunkRow V) × Bool :=
  if (db.find? (fun r => r.id == c)).isSome then
    match outcome with
    | EmbedOutcome.success v => (completeChunk db c v, false)
    | EmbedOutcome.coolDown => (requeueChunk db c, false)
    | EmbedOutcome.fatal => (failChunk db c, true)
  else (failChunk db c, true)

/-- `handleProcessChunk`: atomically claim the chunk; if zero rows were
affected, respond 200 without processing; otherwise process and respond 200,
or 500 when processing threw. -/
def handleProcessChunk (db : List (ChunkRow V)) (c : Nat)
    (outcome : EmbedOutcome V) : List (ChunkRow V) × Nat :=
  let claimed := claimChunk db c
  if claimed.2 = 0 then (claimed.1, 200)
  else
    let processed := processChunkEmbedding claimed.1 c outcome
    (processed.1, if processed.2 then 500 else 200)

/-- One observable mutation of the chunk set of a document, as performed by the
pipeline: the bulk insert is the initial state (see `insertChunks`), then
workers claim (PENDING→PROCESSING), complete, fail, or re-queue.  The
completion/failure/re-queue writes are issued by the worker only for the
chunk it has successfully claimed, which at that point holds PROCESSING
(no other actor writes to a PROCESSING chunk: a rival claim requires
PENDING, and the polling controller never mutates chunk rows). -/
inductive PipeStep (V : Type) : List (ChunkRow V) → List (ChunkRow V) → Prop
  | claim (db : List (ChunkRow V)) (c : Nat) : PipeStep V db (claimChunk db c).1
  | complete (db : List (ChunkRow V)) (c : Nat) (v : V)
      (h : ∀ r ∈ db, r.id = c → r.processing_status = PStatus.processing) :
      PipeStep V db (completeChunk db c v)
  | fail (db : List (ChunkRow V)) (c : Nat)
      (h : ∀ r ∈ db, r.id = c → r.processing_status = PStatus.processing) :
      PipeStep V db (failChunk db c)
  | requeue (db : List (ChunkRow V)) (c : Nat)
      (h : ∀ r ∈ db, r.id = c → r.processing_status = PStatus.processing) :
      PipeStep V db (requeueChunk db c)

/-- The chunk invariant of the spec: `embedding` is non-null iff
`processing_status == COMPLETED`. -/
def StatusEmbInv (db : List (ChunkRow V)) : Prop :=
  ∀ r ∈ db, (r.embedding ≠ none ↔ r.processing_status = PStatus.completed)

instance (db : List (ChunkRow V)) [DecidableEq V] : Decidable (StatusEmbInv db) := by
  unfold StatusEmbInv
  infer_instance

lemma claimChunk_eq_self (db : List (ChunkRow V)) (c : Nat)
    (h : ∀ r ∈ db, ¬ (r.id = c ∧ r.processing_status = PStatus.pending)) :
    claimChunk db c = (db, 0) := by
  unfold claimChunk
  refine Prod.ext ?_ ?_
  · show db.map _ = db
    have h1 : ∀ r ∈ db,
        (if r.id = c ∧ r.processing_status = PStatus.pending then
          { r with processing_status := PStatus.processing } else r) = id r := by
      intro r hr
      simp [if_neg (h r hr)]
    rw [List.map_congr_left h1, List.map_id]
  · show (db.filter _).length = 0
    rw [List.length_eq_zero, List.filter_eq_nil_iff]
    intro r hr
    simpa using h r hr

lemma claimChunk_fst_no_pending (db : List (ChunkRow V)) (c : Nat) :
    ∀ r ∈ (claimChunk db c).1,
      ¬ (r.id = c ∧ r.processing_status = PStatus.pending) := by
  intro r hr
  unfold claimChunk at hr
  rw [List.mem_map] at hr
  obtain ⟨s, _, rfl⟩ := hr
  by_cases hc : s.id = c ∧ s.processing_status = PStatus.pending
  · simp [if_pos hc]
  · simp only [if_neg hc]
    exact hc

/-- C1 — for every chunk-store state, chunk id and embedding outcome:
(i) the claim affects a row iff some row with that id is PENDING (the
conditional update only fires from PENDING);
(ii) re-claiming after a claim is always a zero-row no-op, so at most one
claim of a given chunk can succeed — the winner alone holds PROCESSING;
(iii) a worker whose claim affects zero rows leaves the store unchanged,
performs no processing, and responds 200 (success-no-op). -/
theorem claim_mutual_exclusion (V : Type) [DecidableEq V]
    (db : List (ChunkRow V)) (c : Nat) (outcome : EmbedOutcome V) :
    ((claimChunk db c).2 ≠ 0 ↔
      ∃ r ∈ db, r.id = c ∧ r.processing_status = PStatus.pending) ∧
    claimChunk (claimChunk db c).1 c = ((claimChunk db c).1, 0) ∧
    ((claimChunk db c).2 = 0 → handleProcessChunk db c outcome = (db, 200)) := by
  refine ⟨?_, ?_, ?_⟩
  · unfold claimChunk
    simp only [ne_eq, List.length_eq_zero, List.filter_eq_nil_iff]
    constructor
    · intro h
      by_contra hno
      push_neg at hno
      exact h (fun r hr => by simpa using hno r hr)
    · intro ⟨r, hr, hp⟩ hall
      exact absurd hp (by simpa using hall r hr)
  · exact claimChunk_eq_self _ c (claimChunk_fst_no_pending db c)
  · intro h0
    have hall : ∀ r ∈ db, ¬ (r.id = c ∧ r.processing_status = PStatus.pending) := by
      intro r hr
      unfold claimChunk at h0
      rw [List.length_eq_zero, List.filter_eq_nil_iff] at h0
      simpa using h0 r hr
    have heq := claimChunk_eq_self db c hall
    unfold handleProcessChunk
    rw [heq]
    simp

theorem claim_mutual_exclusion_witness :
    handleProcessChunk (insertChunks Nat "doc" ["alpha"]) 5 EmbedOutcome.fatal
      = (insertChunks Nat "doc" ["alpha"], 200) :=
  (claim_mutual_exclusion Nat (insertChunks Nat "doc" ["alpha"]) 5
    EmbedOutcome.fatal).2.2 (by decide)

lemma pipeStep_preserves_inv {db db' : List (ChunkRow V)}
    (hstep : PipeStep V db db') (hinv : StatusEmbInv db) : StatusEmbInv db' := by
  cases hstep with
  | claim c =>
    intro r' hr'
    rw [show (claimChunk db c).1 = db.map _ from rfl, List.mem_map] at hr'
    obtain ⟨r, hr, rfl⟩ := hr'
    by_cases hc : r.id = c ∧ r.processing_status = PStatus.pending
    · have := (hinv r hr).not
      simp only [if_pos hc]
      simp only [hc.2] at this
      simpa using (by tauto : r.embedding = none)
    · simpa [if_neg hc] using hinv r hr
  | complete c v h =>
    intro r' hr'
    rw [show completeChunk db c v = db.map _ from rfl, List.mem_map] at hr'
    obtain ⟨r, hr, rfl⟩ := hr'
    by_cases hc : r.id = c
    · simp [if_pos hc]
    · simpa [if_neg hc] using hinv r hr
  | fail c h =>
    intro r' hr'
    rw [show failChunk db c = db.map _ from rfl, List.mem_map] at hr'
    obtain ⟨r, hr, rfl⟩ := hr'
    by_cases hc : r.id = c
    · have hproc := h r hr hc
      have hemb : r.embedding = none := by
        have := (hinv r hr).not
        simp only [hproc] at this
        tauto
      simp [if_pos hc, hemb]
    · simpa [if_neg hc] using hinv r hr
  | requeue c h =>
    intro r' hr'
    rw [show requeueChunk db c = db.map _ from rfl, List.mem_map] at hr'
    obtain ⟨r, hr, rfl⟩ := hr'
    by_cases hc : r.id = c
    · have hproc := h r hr hc
      have hemb : r.embedding = none := by
        have := (hinv r hr).not
        simp only [hproc] at this
        tauto
      simp [if_pos hc, hemb]
    · simpa [if_neg hc] using hinv r hr

/-- C2 — in every store state reachable from the bulk insert by pipeline
operations (claim, completion, failure, re-queue), the embedding of a chunk is
non-null iff its processing status is COMPLETED. -/
theorem embedding_iff_completed (V : Type) (docId : String)
    (contents : List String) (db : List (ChunkRow V))
    (h : Relation.ReflTransGen (PipeStep V) (insertChunks V docId contents) db) :
    StatusEmbInv db := by
  induction h with
  | refl =>
    intro r hr
    unfold insertChunks at hr
    rw [List.mem_map] at hr
    obtain ⟨p, _, rfl⟩ := hr
    simp
  | tail _ hstep ih => exact pipeStep_preserves_inv hstep ih

theorem embedding_iff_completed_witness :
    StatusEmbInv (claimChunk (insertChunks Nat "doc" ["alpha", "beta"]) 0).1 :=
  embedding_iff_completed Nat "doc" ["alpha", "beta"] _
    (Relation.ReflTransGen.single (PipeStep.claim _ 0))

/-! ## Polling controller (`handleGetDocumentStatus`) -/

/-- `const MAX_CONCURRENT_WORKERS = 3`. -/
def MAX_CONCURRENT_WORKERS : Nat := 3

/-- `const availableSlots = MAX_CONCURRENT_WORKERS - processing_chunks`
(a JS number, possibly negative). -/
def availableSlots (processing : Nat) : Int :=
  (MAX_CONCURRENT_WORKERS : Int) - (processing : Int)

/-- The dispatch decision of the polling controller: when
`availableSlots > 0 && pending_chunks > 0`, fetch PENDING chunk ids with
`.limit(availableSlots)` (modelled as taking a prefix of the stored pending
ids) and trigger one worker per fetched chunk; otherwise trigger none. -/
def controllerDispatch (processing pending : Nat) (pendingIds : List Nat) :
    List Nat :=
  if 0 < availableSlots processing ∧ 0 < pending then
    pendingIds.take (availableSlots processing).toNat
  else []

/-- Aggregate counts over the chunk store
(`get_document_processing_status`). -/
def totalCount (db : List (ChunkRow V)) : Nat := db.length

def completedCount (db : List (ChunkRow V)) : Nat :=
  db.countP (fun r => decide (r.processing_status = PStatus.completed))

def failedCount (db : List (ChunkRow V)) : Nat :=
  db.countP (fun r => decide (r.processing_status = PStatus.failed))

/-- `Math.round((finishedCount / total_chunks) * 100)` for `total > 0`:
`floor(100*f/t + 1/2)` over the rationals equals `(200*f + t) / (2*t)` in
natural division. -/
def jsRound100 (f t : Nat) : Nat := (200 * f + t) / (2 * t)

/-- The JSON body of the status poll response. -/
structure StatusResp where
  isReady : Bool
  isFinished : Bool
  hasFailed : Bool
  progress : Nat
deriving DecidableEq

/-- The response computation at the end of `handleGetDocumentStatus`:

```
const finishedCount = completed_chunks + failed_chunks;
const hasFailed = failed_chunks > 0;
const isFinished = total_chunks > 0 && finishedCount === total_chunks;
const isReady = isFinished && !hasFailed;
const progress = total_chunks > 0 ? (finishedCount / total_chunks) * 100
                                  : (isFinished ? 100 : 0);
res.json(\x7b isReady, isFinished, hasFailed, progress: Math.round(progress) \x7d);
``` -/
def statusOf (total completed failed : Nat) : StatusResp :=
  let finishedCount := completed + failed
  let hasFailed := decide (0 < failed)
  let isFinished := decide (0 < total ∧ finishedCount = total)
  let isReady := isFinished && !hasFailed
  let progress :=
    if 0 < total then jsRound100 finishedCount total
    else if isFinished then 100 else 0
  { isReady := isReady, isFinished := isFinished,
    hasFailed := hasFailed, progress := progress }

def docStatus (db : List (ChunkRow V)) : StatusResp :=
  statusOf (totalCount db) (completedCount db) (failedCount db)

/-- The response object `src/unnamed/part_011` returns from its
`total_chunks === 0` special case:
`\x7b isReady: true, isFinished: true, hasFailed: false, progress: 100 \x7d`. -/
def statusZeroChunksP011 : StatusResp :=
  { isReady := true, isFinished := true, hasFailed := false, progress := 100 }

/-- C5 — the controller dispatches workers only when
`available_slots = MAX_CONCURRENT_WORKERS − processing` is positive and the
pending count is positive; it then dispatches exactly one worker per selected
PENDING chunk — the first `available_slots` of them — hence at most
`available_slots` workers; and `MAX_CONCURRENT_WORKERS` is the fixed bound 3. -/
theorem controller_dispatch_bound (processing pending : Nat)
    (pendingIds : List Nat) :
    MAX_CONCURRENT_WORKERS = 3 ∧
    (¬ (0 < availableSlots processing ∧ 0 < pending) →
      controllerDispatch processing pending pendingIds = []) ∧
    ((0 < availableSlots processing ∧ 0 < pending) →
      controllerDispatch processing pending pendingIds
        = pendingIds.take (availableSlots processing).toNat) ∧
    (controllerDispatch processing pending pendingIds).length
      ≤ (availableSlots processing).toNat := by
  refine ⟨rfl, ?_, ?_, ?_⟩
  · intro h
    simp [controllerDispatch, if_neg h]
  · intro h
    simp [controllerDispatch, if_pos h]
  · unfold controllerDispatch
    split
    · exact List.length_take_le _ _
    · simp

theorem controller_dispatch_bound_witness :
    controllerDispatch 1 2 [7, 8, 9] = [7, 8] := by
  have h := (controller_dispatch_bound 1 2 [7, 8, 9]).2.2.1 (by decide)
  rw [h]
  decide

lemma countP_le_countP_map (db : List (ChunkRow V)) (f : ChunkRow V → ChunkRow V)
    (p : ChunkRow V → Bool) (hp : ∀ r ∈ db, p r = true → p (f r) = true) :
    db.countP p ≤ (db.map f).countP p := by
  rw [List.countP_map]
  exact List.countP_mono_left hp

lemma pipeStep_total_eq {db db' : List (ChunkRow V)} (h : PipeStep V db db') :
    totalCount db' = totalCount db := by
  cases h <;> simp [totalCount, claimChunk, completeChunk, failChunk, requeueChunk]

lemma pipeStep_completed_mono {db db' : List (ChunkRow V)} (h : PipeStep V db db') :
    completedCount db ≤ completedCount db' := by
  cases h with
  | claim c =>
    refine countP_le_countP_map db _ _ ?_
    intro r _ hp
    simp only [decide_eq_true_eq] at hp
    have : ¬ (r.id = c ∧ r.processing_status = PStatus.pending) := by
      rw [hp]; rintro ⟨-, h⟩; cases h
    simp [if_neg this, hp]
  | complete c v h =>
    refine countP_le_countP_map db _ _ ?_
    intro r _ hp
    by_cases hc : r.id = c <;> simp [hc, hp]
  | fail c h =>
    refine countP_le_countP_map db _ _ ?_
    intro r hr hp
    simp only [decide_eq_true_eq] at hp
    have hc : ¬ r.id = c := fun hc => by
      have := h r hr hc
      rw [hp] at this
      cases this
    simp [if_neg hc, hp]
  | requeue c h =>
    refine countP_le_countP_map db _ _ ?_
    intro r hr hp
    simp only [decide_eq_true_eq] at hp
    have hc : ¬ r.id = c := fun hc => by
      have := h r hr hc
      rw [hp] at this
      cases this
    simp [if_neg hc, hp]

lemma pipeStep_failed_mono {db db' : List (ChunkRow V)} (h : PipeStep V db db') :
    failedCount db ≤ failedCount db' := by
  cases h with
  | claim c =>
    refine countP_le_countP_map db _ _ ?_
    intro r _ hp
    simp only [decide_eq_true_eq] at hp
    have : ¬ (r.id = c ∧ r.processing_status = PStatus.pending) := by
      rw [hp]; rintro ⟨-, h⟩; cases h
    simp [if_neg this, hp]
  | complete c v h =>
    refine countP_le_countP_map db _ _ ?_
    intro r hr hp
    simp only [decide_eq_true_eq] at hp
    have hc : ¬ r.id = c := fun hc => by
      have := h r hr hc
      rw [hp] at this
      cases this
    simp [if_neg hc, hp]
  | fail c h =>
    refine countP_le_countP_map db _ _ ?_
    intro r _ hp
    by_cases hc : r.id = c <;> simp [hc, hp]
  | requeue c h =>
    refine countP_le_countP_map db _ _ ?_
    intro r hr hp
    simp only [decide_eq_true_eq] at hp
    have hc : ¬ r.id = c := fun hc => by
      have := h r hr hc
      rw [hp] at this
      cases this
    simp [if_neg hc, hp]

lemma pipeStep_progress_mono {db db' : List (ChunkRow V)} (h : PipeStep V db db') :
    (docStatus db).progress ≤ (docStatus db').progress := by
  have htot := pipeStep_total_eq h
  have hc := pipeStep_completed_mono h
  have hf := pipeStep_failed_mono h
  unfold docStatus statusOf
  rw [htot]
  by_cases ht : 0 < totalCount db
  · simp only [if_pos ht]
    unfold jsRound100
    exact Nat.div_le_div_right (by omega)
  · simp only [if_neg ht]
    have h0 : totalCount db = 0 := by omega
    simp [h0]

/-- C6 — for a fixed document, along any sequence of pipeline operations
(claims, completions, permanent failures, re-queues), the total chunk count is
unchanged and the reported progress `round(100 × (completed+failed)/total)`
never decreases from one status poll to a later one. -/
theorem progress_monotone (V : Type) (db db' : List (ChunkRow V))
    (h : Relation.ReflTransGen (PipeStep V) db db') :
    totalCount db' = totalCount db ∧
    (docStatus db).progress ≤ (docStatus db').progress := by
  induction h with
  | refl => exact ⟨rfl, le_refl _⟩
  | tail _ hstep ih =>
    exact ⟨(pipeStep_total_eq hstep).trans ih.1,
      ih.2.trans (pipeStep_progress_mono hstep)⟩

theorem progress_monotone_witness :
    totalCount (completeChunk (claimChunk (insertChunks Nat "doc" ["a", "b"]) 0).1 0 7)
      = totalCount (insertChunks Nat "doc" ["a", "b"]) ∧
    (docStatus (insertChunks Nat "doc" ["a", "b"])).progress ≤
      (docStatus (completeChunk (claimChunk (insertChunks Nat "doc" ["a", "b"]) 0).1 0 7)).progress :=
  progress_monotone Nat _ _
    ((Relation.ReflTransGen.single (PipeStep.claim _ 0)).tail
      (PipeStep.complete _ 0 7 (by decide)))

/-- C7 — the claim (and `src/unnamed/part_011`, which implements it) says a
status poll with `total == 0` reports the job finished and completed with
full progress.  `handleGetDocumentStatus` in `documentHandler.ts` does not:
`isFinished = total_chunks > 0 && …` is `false` when `total_chunks` is `0`,
so the `(isFinished ? 100 : 0)` fallback is dead and the poll reports
`isFinished: false, isReady: false, progress: 0` forever. -/
theorem status_total_zero_bug :
    statusOf 0 0 0
      = { isReady := false, isFinished := false, hasFailed := false, progress := 0 } ∧
    statusOf 0 0 0 ≠ statusZeroChunksP011 := by
  constructor <;> decide

/-! ## Retry with backoff and rate-limit handling (`retry` in
`documentHandler.ts`)

An attempt of `fn()` (the embedding call) either resolves, rejects with a 429
rate-limit error — carrying the provider-suggested wait in milliseconds when
the message parses — or rejects with some other error.  Durations are
rationals (JS numbers, `parseFloat` of the matched text times 1000). -/

inductive AttemptOutcome (V : Type)
  | ok (v : V)
  | rateLimit (waitMs : Option ℚ)
  | otherErr
deriving DecidableEq

def isRateLimit : AttemptOutcome V → Bool
  | AttemptOutcome.rateLimit _ => true
  | _ => false

/-- `backoffDelay`: `delay * 2^i`, overridden to `apiWaitTime + 500` when a
429 error carries a parsed wait. -/
def backoffDelay (delay : ℚ) (i : Nat) : AttemptOutcome V → ℚ
  | AttemptOutcome.rateLimit (some w) => w + 500
  | _ => delay * 2 ^ i

/-- Result of the `retry` loop: a value; a thrown `RateLimitCoolDownError`
(the caller re-queues the chunk); or the last error re-thrown after the
budget is spent.  `sleeps` records the in-invocation waits performed. -/
inductive RetryResult (V : Type)
  | success (v : V) (sleeps : List ℚ)
  | coolDown (sleeps : List ℚ)
  | exhausted (sleeps : List ℚ)
deriving DecidableEq

/-- The loop body of `retry(fn, retries, delay)`: `rem` is the number of
attempts still allowed, `i` the index of the current attempt.  A 429 whose
backoff delay exceeds the 5000 ms threshold throws `RateLimitCoolDownError`
immediately; otherwise the loop sleeps and retries, except on the final
attempt (`i = retries - 1`), where the loop exits and the last error is
re-thrown. -/
def retryGo (attempts : Nat → AttemptOutcome V) (delay : ℚ) :
    Nat → Nat → List ℚ → RetryResult V
  | 0, _, sleeps => RetryResult.exhausted sleeps
  | rem + 1, i, sleeps =>
    match attempts i with
    | AttemptOutcome.ok v => RetryResult.success v sleeps
    | e =>
      let b := backoffDelay delay i e
      if isRateLimit e = true ∧ 5000 < b then RetryResult.coolDown sleeps
      else if rem = 0 then RetryResult.exhausted sleeps
      else retryGo attempts delay rem (i + 1) (sleeps ++ [b])

/-- `retry(fn)` with the default budget `retries = 3, delay = 1000`. -/
def retryRun (attempts : Nat → AttemptOutcome V) : RetryResult V :=
  retryGo attempts 1000 3 0 []

/-- How `_processChunkEmbedding` consumes the retry result: a success writes
the embedding, a `RateLimitCoolDownError` re-queues, anything thrown after
the budget is a fatal failure. -/
def outcomeOfRetry : RetryResult V → EmbedOutcome V
  | RetryResult.success v _ => EmbedOutcome.success v
  | RetryResult.coolDown _ => EmbedOutcome.coolDown
  | RetryResult.exhausted _ => EmbedOutcome.fatal

lemma retryGo_rateLimit_step (attempts : Nat → AttemptOutcome V) (delay : ℚ)
    (rem i : Nat) (sleeps : List ℚ) (w : ℚ)
    (hatt : attempts i = AttemptOutcome.rateLimit (some w)) :
    retryGo attempts delay (rem + 1) i sleeps =
      if 5000 < w + 500 then RetryResult.coolDown sleeps
      else if rem = 0 then RetryResult.exhausted sleeps
      else retryGo attempts delay rem (i + 1) (sleeps ++ [w + 500]) := by
  rw [retryGo, hatt]
  dsimp only [backoffDelay, isRateLimit]
  simp only [true_and]

/-- C3 — counterexample.  The claim says every embedding attempt failing with
a rate-limit signal whose suggested wait is below the threshold is slept on
and retried within the same invocation.  Not so for the final attempt of the
budget: with every attempt rejecting 429 and a suggested wait of 1000 ms
(backoff 1500 ms, well under the 5000 ms threshold), the first two failures
are retried but the third is re-thrown — `retry` returns the error, and the
worker marks the chunk FAILED instead of retrying or re-queueing. -/
theorem retry_short_wait_counterexample :
    retryRun (fun _ => AttemptOutcome.rateLimit (V := Unit) (some 1000))
      = RetryResult.exhausted [1500, 1500] ∧
    outcomeOfRetry (retryRun (fun _ => AttemptOutcome.rateLimit (V := Unit) (some 1000)))
      = EmbedOutcome.fatal ∧
    processChunkEmbedding (insertChunks Unit "doc" ["x"]) 0 EmbedOutcome.fatal
      = (failChunk (insertChunks Unit "doc" ["x"]) 0, true) := by
  have hrun : retryRun (fun _ => AttemptOutcome.rateLimit (V := Unit) (some 1000))
      = RetryResult.exhausted [1500, 1500] := by
    rw [retryRun]
    rw [show (3 : Nat) = 2 + 1 from rfl, retryGo_rateLimit_step _ _ 2 0 [] 1000 rfl]
    norm_num
    rw [show (2 : Nat) = 1 + 1 from rfl, retryGo_rateLimit_step _ _ 1 1 [1500] 1000 rfl]
    norm_num
    rw [retryGo_rateLimit_step _ _ 0 2 [1500, 1500] 1000 rfl]
    norm_num
  refine ⟨hrun, ?_, by decide⟩
  rw [hrun]
  rfl


/-- C3 — amended claim.  For an embedding attempt that fails with a
rate-limit signal carrying a provider-suggested wait `w` (ms):
(i) if `w + 500 ≤ 5000` and at least one attempt of the budget remains, the
worker sleeps `w + 500` ms and retries within the same invocation;
(ii) if `w + 500 ≤ 5000` but the budget is exhausted (final attempt), the
error is re-thrown and the chunk is marked FAILED;
(iii) if `w + 500 > 5000`, on any attempt, `retry` throws
`RateLimitCoolDownError` and the worker reverts the chunk to PENDING — a
re-queue, not a FAILED mark. -/
theorem retry_rate_limit_amended (V : Type) (attempts : Nat → AttemptOutcome V)
    (delay : ℚ) (rem i : Nat) (sleeps : List ℚ) (w : ℚ)
    (hatt : attempts i = AttemptOutcome.rateLimit (some w)) :
    (w + 500 ≤ 5000 →
      retryGo attempts delay (rem + 2) i sleeps
        = retryGo attempts delay (rem + 1) (i + 1) (sleeps ++ [w + 500])) ∧
    (w + 500 ≤ 5000 →
      retryGo attempts delay 1 i sleeps = RetryResult.exhausted sleeps) ∧
    (5000 < w + 500 →
      retryGo attempts delay (rem + 1) i sleeps = RetryResult.coolDown sleeps ∧
      ∀ db : List (ChunkRow V), (db.find? (fun r => r.id == i)).isSome →
        processChunkEmbedding db i
          (outcomeOfRetry (RetryResult.coolDown (V := V) sleeps))
          = (requeueChunk db i, false)) := by
  refine ⟨?_, ?_, ?_⟩
  · intro hle
    rw [show rem + 2 = (rem + 1) + 1 from rfl,
      retryGo_rateLimit_step attempts delay (rem + 1) i sleeps w hatt,
      if_neg (by linarith), if_neg (by omega)]
  · intro hle
    rw [show (1 : Nat) = 0 + 1 from rfl,
      retryGo_rateLimit_step attempts delay 0 i sleeps w hatt,
      if_neg (by linarith), if_pos rfl]
  · intro hgt
    constructor
    · rw [retryGo_rateLimit_step attempts delay rem i sleeps w hatt, if_pos hgt]
    · intro db hfind
      simp [processChunkEmbedding, outcomeOfRetry, hfind]

theorem retry_rate_limit_amended_witness :
    (retryGo (fun _ => AttemptOutcome.rateLimit (V := Unit) (some 1000)) 1000 2 0 []
      = retryGo (fun _ => AttemptOutcome.rateLimit (V := Unit) (some 1000)) 1000 1 1 [1500]) ∧
    (retryGo (fun _ => AttemptOutcome.rateLimit (V := Unit) (some 6000)) 1000 3 0 []
      = RetryResult.coolDown []) := by
  constructor
  · have h := (retry_rate_limit_amended Unit
      (fun _ => AttemptOutcome.rateLimit (V := Unit) (some 1000))
      1000 0 0 [] 1000 rfl).1 (by norm_num)
    norm_num at h
    exact h
  · have h := ((retry_rate_limit_amended Unit
      (fun _ => AttemptOutcome.rateLimit (V := Unit) (some 6000))
      1000 2 0 [] 6000 rfl).2.2 (by norm_num)).1
    norm_num at h
    exact h

/-! ## Embedding service (`createEmbedding`,
`api/src/services/embeddingService.ts`, the 64-dimension variant at
lines 193-249)

The provider response is modelled after the parse stage: `none` when
`generateContent` threw or returned an empty text, `some tokens` with one
entry per comma-separated token, `none` entries for tokens `parseFloat`
could not turn into a number.  `Math.sqrt` on JS floats is treated as an
opaque numeric primitive `sq`.  The `Except` result records whether the
async function rejects (`error`) or resolves (`ok`). -/

def EMBEDDING_DIMENSION : Nat := 64

/-- The `try` block: validate the shape (`length === 64`), validate all
entries numeric, then L2-normalize (all-zero vectors are returned as zeros).
Any failure is an exception that reaches the `catch`. -/
def tryCreateEmbedding (resp : Option (List (Option ℚ))) (sq : ℚ → ℚ) :
    Except Unit (List ℚ) :=
  match resp with
  | none => Except.error ()
  | some tokens =>
    if tokens.length ≠ EMBEDDING_DIMENSION then Except.error ()
    else if tokens.any (fun t => t.isNone) then Except.error ()
    else
      let vector := tokens.map (fun t => t.getD 0)
      let magnitude := sq ((vector.map (fun v => v * v)).sum)
      if magnitude = 0 then Except.ok (List.replicate EMBEDDING_DIMENSION 0)
      else Except.ok (vector.map (fun v => v / magnitude))

/-- `createEmbedding`: the `catch` block does not re-throw — it builds a
fresh random vector (`rand`, one sample of `Math.random()*2-1` per
dimension), normalizes it the same way, and returns it as the result. -/
def createEmbedding (resp : Option (List (Option ℚ))) (sq : ℚ → ℚ)
    (rand : List ℚ) : Except Unit (List ℚ) :=
  match tryCreateEmbedding resp sq with
  | Except.ok v => Except.ok v
  | Except.error _ =>
    let magnitude := sq ((rand.map (fun v => v * v)).sum)
    if magnitude = 0 then Except.ok (List.replicate EMBEDDING_DIMENSION 0)
    else Except.ok (rand.map (fun v => v / magnitude))

/-- C4 — counterexample.  The claim says an unrecoverable embedding failure
is propagated to the caller and never replaced by a fabricated result.  But
when the provider call throws (response `none`), the cited `createEmbedding`
resolves successfully with a fabricated vector: here the all-ones random
draw, normalized by `sq = 8`, yields `.ok` of sixty-four entries `1/8` —
no error ever reaches the worker, and the chunk would be marked COMPLETED
with a random embedding. -/
theorem create_embedding_fabricates_counterexample :
    createEmbedding none (fun _ => 8) (List.replicate 64 1)
      = Except.ok (List.replicate 64 (1 / 8)) ∧
    tryCreateEmbedding none (fun _ => 8) = Except.error () := by
  constructor
  · rfl
  · rfl

/-- C4 — amended claim.  Failures that do reach the worker — a failed chunk
fetch, or an error thrown out of the retry budget — mark the chunk FAILED
and propagate (the handler answers 500), with no fabricated result.  But
embedding-provider failures never reach the worker: whenever the `try` block
of the cited `createEmbedding` fails, the function still resolves with a
fabricated (random, normalized) vector instead of rejecting. -/
theorem embedding_failure_amended (V : Type) [DecidableEq V]
    (db : List (ChunkRow V)) (c : Nat)
    (resp : Option (List (Option ℚ))) (sq : ℚ → ℚ) (rand : List ℚ) :
    (processChunkEmbedding db c EmbedOutcome.fatal = (failChunk db c, true)) ∧
    ((claimChunk db c).2 ≠ 0 →
      handleProcessChunk db c EmbedOutcome.fatal
        = (failChunk (claimChunk db c).1 c, 500)) ∧
    (tryCreateEmbedding resp sq = Except.error () →
      ∃ v, createEmbedding resp sq rand = Except.ok v) := by
  refine ⟨?_, ?_, ?_⟩
  · unfold processChunkEmbedding
    split <;> rfl
  · intro hne
    unfold handleProcessChunk
    rw [if_neg hne]
    have hfst : processChunkEmbedding (claimChunk db c).1 c (EmbedOutcome.fatal (V := V))
        = (failChunk (claimChunk db c).1 c, true) := by
      unfold processChunkEmbedding
      split <;> rfl
    rw [hfst]
    rfl
  · intro herr
    unfold createEmbedding
    rw [herr]
    dsimp only
    split
    · exact ⟨_, rfl⟩
    · exact ⟨_, rfl⟩

theorem embedding_failure_amended_witness :
    handleProcessChunk (insertChunks Nat "doc" ["x"]) 0 EmbedOutcome.fatal
      = (failChunk (claimChunk (insertChunks Nat "doc" ["x"]) 0).1 0, 500) ∧
    ∃ v, createEmbedding none (fun _ => 0) [] = Except.ok v := by
  constructor
  · exact (embedding_failure_amended Nat (insertChunks Nat "doc" ["x"]) 0
      none (fun _ => 0) []).2.1 (by decide)
  · exact (embedding_failure_amended Nat (insertChunks Nat "doc" ["x"]) 0
      none (fun _ => 0) []).2.2 rfl

/-! ## Stratified sampling (`stratifiedSample`, clustering utility) -/

/-- The grouping loop: `clusters[clusterAssignments[i]].push(items[i])` for
each index, giving `k` buckets that keep the original order within each
cluster. -/
def clustersOf (items : List α) (asg : List Nat) (k : Nat) : List (List α) :=
  (List.range k).map (fun c =>
    ((items.zip asg).filter (fun p => p.2 == c)).map Prod.fst)

/-- The sampling loop: for each cluster in order, push up to
`samplesPerCluster` of its items while the overall result is still shorter
than `targetCount` (`room` is the remaining quota). -/
def sampleClusters : List (List α) → Nat → Nat → List α
  | [], _, _ => []
  | c :: cs, spc, room =>
    let t := c.take (min spc room)
    t ++ sampleClusters cs spc (room - t.length)

/-- `stratifiedSample(items, clusterAssignments, targetCount, k)`:
early-return `[]` on empty input or zero target; group by cluster; sample
`samplesPerCluster = max(1, ceil(targetCount / k))` per cluster until the
target is reached; `slice(0, targetCount)` at the end. -/
def stratifiedSample (items : List α) (asg : List Nat) (targetCount k : Nat) :
    List α :=
  if items.length = 0 ∨ targetCount = 0 then []
  else
    let clusters := clustersOf items asg k
    let samplesPerCluster := max 1 ((targetCount + k - 1) / k)
    (sampleClusters clusters samplesPerCluster targetCount).take targetCount

lemma sampleClusters_eq_join_take (cs : List (List α)) (spc : Nat) :
    ∀ room, sampleClusters cs spc room
      = ((cs.map (fun c => c.take spc)).flatten).take room := by
  induction cs with
  | nil => intro room; simp [sampleClusters]
  | cons c cs ih =>
    intro room
    rw [sampleClusters]
    simp only [List.map_cons, List.flatten_cons]
    rw [List.take_append_eq_append_take, ih]
    congr 1
    · rw [List.take_take, Nat.min_comm]
    · congr 1
      simp only [List.length_take]
      omega

/-- C10 — `stratifiedSample` never returns more than `targetCount` items,
and its output is exactly: walk the clusters in order, take up to
`ceil(targetCount/k)` items from each (in original order within the
cluster), truncated at `targetCount` — i.e. the overall target is filled
until reached or the clusters are exhausted. -/
theorem stratified_sample_spec (items : List α) (asg : List Nat)
    (targetCount k : Nat) (hk : 0 < k) (hlen : asg.length = items.length)
    (hrange : ∀ a ∈ asg, a < k) :
    (stratifiedSample items asg targetCount k).length ≤ targetCount ∧
    stratifiedSample items asg targetCount k
      = (((clustersOf items asg k).map
          (fun c => c.take ((targetCount + k - 1) / k))).flatten).take targetCount := by
  unfold stratifiedSample
  by_cases h0 : items.length = 0 ∨ targetCount = 0
  · rw [if_pos h0]
    rcases h0 with h0 | h0
    · have hnil : items = [] := List.length_eq_zero.mp h0
      subst hnil
      constructor
      · simp
      · have : ∀ c ∈ (clustersOf ([] : List α) asg k).map
            (fun c => c.take ((targetCount + k - 1) / k)), c = [] := by
          intro c hc
          rw [List.mem_map] at hc
          obtain ⟨c', hc', rfl⟩ := hc
          unfold clustersOf at hc'
          rw [List.mem_map] at hc'
          obtain ⟨i, -, rfl⟩ := hc'
          simp
        rw [List.flatten_eq_nil_iff.mpr this]
        simp
    · subst h0
      simp
  · rw [if_neg h0]
    push_neg at h0
    have htc : 0 < targetCount := by omega
    have hspc : max 1 ((targetCount + k - 1) / k) = (targetCount + k - 1) / k := by
      have h1 : 1 ≤ (targetCount + k - 1) / k := by
        rw [Nat.le_div_iff_mul_le hk]
        omega
      omega
    dsimp only
    rw [hspc, sampleClusters_eq_join_take, List.take_take, Nat.min_self]
    exact ⟨List.length_take_le _ _, rfl⟩

theorem stratified_sample_spec_witness :
    (stratifiedSample [10, 20, 30, 40] [0, 1, 0, 1] 3 2).length ≤ 3 ∧
    stratifiedSample [10, 20, 30, 40] [0, 1, 0, 1] 3 2
      = (((clustersOf [10, 20, 30, 40] [0, 1, 0, 1] 2).map
          (fun c => c.take ((3 + 2 - 1) / 2))).flatten).take 3 :=
  stratified_sample_spec [10, 20, 30, 40] [0, 1, 0, 1] 3 2
    (by decide) (by decide) (by decide)

end StudySidekick
